import Mathlib

/-!
Shallow embedding of `sampler.py` (the rejection-sampling module of the
500lines repository) and proofs about its specification.

The module defines a class `RejectionSampler` holding three user supplied
callables (`propose_func`, `propose_logpdf`, `target_logpdf`), a module
constant `MIN = np.log(np.finfo('float64').tiny)`, a single-draw loop
`draw()`, and a batch routine `sample(n, seed)` that allocates a numpy
buffer whose shape is inferred from the first draw.

The embedding has two layers.

Layer A (control flow of `sample`, executable): the single-draw routine is
abstracted as a state-transformer `drawFn : G → Val × G` on an abstract
generator state `G` (it models `self.draw()`, which both returns a value
and advances numpy's global generator), and `np.random.seed` is modelled by
`seedFn : ℤ → G`.  Buffers, numpy `empty` allocation, element assignment
with its era-numpy broadcasting rules, and the index loop `for i in
xrange(1, n)` are transliterated directly.

Layer B (the accept/reject loop of `draw`, over ℝ): candidates are the
stream `propose : ℕ → α` (the k-th value returned by `propose_func`), the
uniform thresholds are the stream `thr : ℕ → ℝ` (the threshold
`np.random.uniform(0.0, np.exp(upper))` that is drawn at iteration k when
the guard `upper >= MIN` passes; entries at guarded-out iterations are
never consulted, which is itself proved below), and `q`, `p` are
`propose_logpdf`, `target_logpdf`.  The `while True` loop is embedded as a
fuel-indexed function `draw`.
-/

namespace RejectionSampler

/-- A value returned by the proposal sampler `propose_func`: either a scalar
(`len` raises `TypeError`) or a fixed-length sequence (`len` succeeds), which
is exactly the dispatch `try: d = len(first) except TypeError:` performed by
`sample`.  Payloads are real numbers modelling Python floats. -/
inductive Val where
  | scalar (x : ℝ)
  | vec (xs : List ℝ)

/-- The dimensionality of a value: `none` for a scalar, `some d` for a
length-d sequence.  This is what the `try/except` on `len(first)` inspects. -/
def Val.dim : Val → Option ℕ
  | .scalar _ => none
  | .vec xs => some xs.length

/-- The scalar components of a value (a scalar has one, a sequence has its
entries).  Used to state which numbers a stored value contributes to the
sample buffer. -/
def Val.cells : Val → List ℝ
  | .scalar x => [x]
  | .vec xs => xs

/-- A numpy buffer as allocated by `np.empty(n)` (one-dimensional) or
`np.empty((n, d))` (two-dimensional).  A cell holding `none` is still
uninitialised (numpy `empty` does not initialise memory). -/
inductive Buffer where
  | oneD (data : List (Option ℝ))
  | twoD (d : ℕ) (rows : List (Option (List ℝ)))

/-- Failures surfaced by the numpy operations used in `sample`:
`negativeDimension` is the `ValueError` raised by `np.empty` on a negative
size, `indexOutOfBounds` is the `IndexError` raised by `samples[i] = ...`
with `i` out of range, and `shapeMismatch` is the `ValueError` raised when
an assigned sequence cannot be broadcast into the selected cell or row. -/
inductive Err where
  | negativeDimension
  | indexOutOfBounds
  | shapeMismatch
deriving DecidableEq

/-- Length of the buffer along its first axis. -/
def Buffer.firstLen : Buffer → ℕ
  | .oneD data => data.length
  | .twoD _ rows => rows.length

/-- Secondary dimension of the buffer: `none` for shape `(n,)`, `some d` for
shape `(n, d)`. -/
def Buffer.dim : Buffer → Option ℕ
  | .oneD _ => none
  | .twoD d _ => some d

/-- The entry stored at index 0 of the buffer, if initialised, read back as a
`Val` of the buffer's own kind. -/
def Buffer.row0 : Buffer → Option Val
  | .oneD data =>
      match data.head? with
      | some (some x) => some (.scalar x)
      | _ => none
  | .twoD _ rows =>
      match rows.head? with
      | some (some xs) => some (.vec xs)
      | _ => none

/-- All scalar values that have actually been written into the buffer
(uninitialised cells are skipped). -/
def Buffer.written : Buffer → List ℝ
  | .oneD data => data.filterMap id
  | .twoD _ rows => (rows.filterMap id).flatten

/-- The numpy assignment `samples[i] = v`, with the broadcasting behaviour of
the numpy contemporary with this (Python 2) source: into a 1-D buffer a
scalar is stored, a length-1 sequence is unwrapped and stored, and any other
sequence raises; into a row of a 2-D `(n, d)` buffer a length-d sequence is
stored elementwise, while a scalar or a length-1 sequence is broadcast
across the whole row (for d = 1 the broadcast of `[x]` coincides with
storing it), and any other length raises.  An out-of-range index raises
`IndexError`.  The rule is written out per list constructor so that each
case is a disjoint pattern. -/
def Buffer.set (b : Buffer) (i : ℕ) (v : Val) : Except Err Buffer :=
  match b, v with
  | .oneD data, .scalar x =>
      if i < data.length then .ok (.oneD (data.set i (some x)))
      else .error .indexOutOfBounds
  | .oneD data, .vec [x] =>
      if i < data.length then .ok (.oneD (data.set i (some x)))
      else .error .indexOutOfBounds
  | .oneD data, .vec [] =>
      if i < data.length then .error .shapeMismatch
      else .error .indexOutOfBounds
  | .oneD data, .vec (_ :: _ :: _) =>
      if i < data.length then .error .shapeMismatch
      else .error .indexOutOfBounds
  | .twoD d rows, .scalar x =>
      if i < rows.length then .ok (.twoD d (rows.set i (some (List.replicate d x))))
      else .error .indexOutOfBounds
  | .twoD d rows, .vec [x] =>
      if i < rows.length then .ok (.twoD d (rows.set i (some (List.replicate d x))))
      else .error .indexOutOfBounds
  | .twoD d rows, .vec [] =>
      if i < rows.length then
        if 0 = d then .ok (.twoD d (rows.set i (some []))) else .error .shapeMismatch
      else .error .indexOutOfBounds
  | .twoD d rows, .vec (x :: y :: t) =>
      if i < rows.length then
        if t.length + 2 = d then .ok (.twoD d (rows.set i (some (x :: y :: t))))
        else .error .shapeMismatch
      else .error .indexOutOfBounds

/-- The allocation step of `sample`: `try: d = len(first) except TypeError:
self.samples = np.empty(n) else: self.samples = np.empty((n, d))`.  A scalar
first draw allocates shape `(n,)`, a length-d first draw allocates
`(n, d)`; in both branches `np.empty` raises on a negative size. -/
def npEmptyFor (first : Val) (n : ℤ) : Except Err Buffer :=
  match first with
  | .scalar _ =>
      if n < 0 then .error .negativeDimension
      else .ok (.oneD (List.replicate n.toNat none))
  | .vec xs =>
      if n < 0 then .error .negativeDimension
      else .ok (.twoD xs.length (List.replicate n.toNat none))

/-- The mutable state touched by `sample`: the instance attribute
`self.samples` (`none` models the initial `None`) and the shared numpy
generator state, of abstract type `G`. -/
structure State (G : Type u) where
  samples : Option Buffer
  g : G

/-- The seeding step `if seed is not None: np.random.seed(seed)`: with a
seed the generator state is re-initialised from the seed alone, otherwise it
is left as it was. -/
def effGen (seedFn : ℤ → G) (seed : Option ℤ) (g : G) : G :=
  match seed with
  | some s => seedFn s
  | none => g

/-- The index list of the storage loop `for i in xrange(1, n)`. -/
def loopIndices (n : ℤ) : List ℕ := List.range' 1 (n.toNat - 1)

/-- The storage loop of `sample`: for each index, perform one draw and
assign it into the buffer; a raising assignment aborts the loop with the
buffer as it was before the failed assignment (the draw for it has already
consumed generator state). -/
def runLoop (drawFn : G → Val × G) : List ℕ → Buffer → G → Buffer × G × Option Err
  | [], b, g => (b, g, none)
  | i :: rest, b, g =>
      let fg := drawFn g
      match b.set i fg.1 with
      | .error e => (b, fg.2, some e)
      | .ok b' => runLoop drawFn rest b' fg.2

/-- The generator state after k draws. -/
def gIter (drawFn : G → Val × G) (g : G) : ℕ → G
  | 0 => g
  | k + 1 => (drawFn (gIter drawFn g k)).2

/-- The value produced by the (k+1)-st draw starting from generator state
g. -/
def drawAt (drawFn : G → Val × G) (g : G) (k : ℕ) : Val :=
  (drawFn (gIter drawFn g k)).1

/-- Transliteration of `RejectionSampler.sample(n, seed)`: seed the
generator if a seed is given; perform the first draw; allocate the buffer
from its shape (a failure here leaves `self.samples` untouched); assign the
first draw at index 0 (`self.samples` now already holds the new buffer, so a
failure here has replaced the old buffer); run the storage loop for indices
1..n-1 (a failure leaves the partially filled new buffer in
`self.samples`); return the filled buffer.  The returned pair is the
post-call state (`self.samples`, generator) and the call's result. -/
def sample (drawFn : G → Val × G) (seedFn : ℤ → G) (n : ℤ) (seed : Option ℤ)
    (st : State G) : State G × Except Err Buffer :=
  let g0 := effGen seedFn seed st.g
  let fg := drawFn g0
  match npEmptyFor fg.1 n with
  | .error e => (⟨st.samples, fg.2⟩, .error e)
  | .ok buf0 =>
      match buf0.set 0 fg.1 with
      | .error e => (⟨some buf0, fg.2⟩, .error e)
      | .ok buf1 =>
          match runLoop drawFn (loopIndices n) buf1 fg.2 with
          | (buf2, g2, some e) => (⟨some buf2, g2⟩, .error e)
          | (buf2, g2, none) => (⟨some buf2, g2⟩, .ok buf2)

/-- Shape compatibility of a later draw with the dimensionality fixed by the
first draw, exactly as decided by `Buffer.set` on an in-range index: into a
scalar-shaped batch (`none`) a scalar always fits and a sequence fits only
with length 1; into a sequence-shaped batch (`some d`) a scalar always fits
(broadcast) and a sequence fits with length d or length 1 (broadcast). -/
def compatDim : Option ℕ → Val → Prop
  | none, .scalar _ => True
  | none, .vec xs => xs.length = 1
  | some _, .scalar _ => True
  | some d, .vec xs => xs.length = d ∨ xs.length = 1

/-- The module constant `MIN = np.log(np.finfo('float64').tiny)`: the
natural logarithm of the smallest positive normal double, 2^(-1022). -/
noncomputable def MIN : ℝ := Real.log ((2 : ℝ) ^ (-1022 : ℤ))

/-- One iteration of the `while True` loop of `draw` accepts: the proposal
log-density of the k-th candidate clears the floor (`upper >= MIN`) and the
logarithm of the k-th uniform threshold is strictly below the target
log-density at the candidate (`log_threshold < self.target_logpdf(...)`). -/
def iterAccepts (propose : ℕ → α) (thr : ℕ → ℝ) (q p : α → ℝ) (k : ℕ) : Prop :=
  MIN ≤ q (propose k) ∧ Real.log (thr k) < p (propose k)

open Classical in
/-- Fuel-indexed transliteration of the `while True` loop of
`RejectionSampler.draw`, started at iteration k: take the next candidate
`propose k`; compute `upper = q(candidate)`; if `upper >= MIN`, draw the
threshold `thr k` and accept the candidate when `log (thr k) < p
(candidate)`; otherwise (guard failed, or test failed) continue with the
next iteration.  `none` means the fuel ran out before an acceptance (the
real loop is unbounded). -/
noncomputable def draw (propose : ℕ → α) (thr : ℕ → ℝ) (q p : α → ℝ) :
    ℕ → ℕ → Option α
  | 0, _ => none
  | fuel + 1, k =>
      if MIN ≤ q (propose k) then
        if Real.log (thr k) < p (propose k) then some (propose k)
        else draw propose thr q p fuel (k + 1)
      else draw propose thr q p fuel (k + 1)

/-! Basic facts about the numeric floor `MIN`. -/

lemma MIN_eq : MIN = -1022 * Real.log 2 := by
  rw [MIN, Real.log_zpow]
  norm_num

lemma MIN_neg : MIN < 0 := by
  rw [MIN_eq]
  have h2 : 0 < Real.log 2 := Real.log_pos (by norm_num)
  nlinarith

lemma exp_MIN : Real.exp MIN = (2 : ℝ) ^ (-1022 : ℤ) :=
  Real.exp_log (by positivity)

/-! Facts about buffer assignment. -/

lemma head?_set {α : Type u} (l : List α) (i : ℕ) (a : α) (h : 1 ≤ i) :
    (l.set i a).head? = l.head? := by
  cases l with
  | nil => rfl
  | cons x t =>
      cases i with
      | zero => omega
      | succ j => rfl

lemma filterMap_id_replicate_none {α : Type u} (n : ℕ) :
    (List.replicate n (none : Option α)).filterMap id = [] := by
  induction n with
  | zero => rfl
  | succ m ih => simp [List.replicate_succ, ih]

lemma Buffer.set_ok_shape {b b' : Buffer} {i : ℕ} {v : Val}
    (h : b.set i v = .ok b') :
    b'.firstLen = b.firstLen ∧ b'.dim = b.dim := by
  rcases b with data | ⟨d, rows⟩ <;>
    rcases v with x | (_ | ⟨x, _ | ⟨y, t⟩⟩) <;>
    simp only [Buffer.set] at h <;>
    split_ifs at h <;>
    (cases h
     simp [Buffer.firstLen, Buffer.dim])

lemma Buffer.set_ok_iff {b : Buffer} {i : ℕ} {v : Val}
    (hi : i < b.firstLen) :
    (∃ b', b.set i v = .ok b') ↔ compatDim b.dim v := by
  rcases b with data | ⟨d, rows⟩
  · replace hi : i < data.length := hi
    rcases v with x | (_ | ⟨x, _ | ⟨y, t⟩⟩)
    · simp [Buffer.set, if_pos hi, compatDim, Buffer.dim]
    · simp [Buffer.set, if_pos hi, compatDim, Buffer.dim]
    · simp [Buffer.set, if_pos hi, compatDim, Buffer.dim]
    · simp [Buffer.set, if_pos hi, compatDim, Buffer.dim]
  · replace hi : i < rows.length := hi
    rcases v with x | (_ | ⟨x, _ | ⟨y, t⟩⟩)
    · simp [Buffer.set, if_pos hi, compatDim, Buffer.dim]
    · by_cases hd : 0 = d
      · simp only [Buffer.set, if_pos hi, if_pos hd, compatDim, Buffer.dim]
        simp
        omega
      · simp only [Buffer.set, if_pos hi, if_neg hd, compatDim, Buffer.dim]
        simp
        omega
    · simp [Buffer.set, if_pos hi, compatDim, Buffer.dim]
    · by_cases hd : t.length + 2 = d
      · simp only [Buffer.set, if_pos hi, if_pos hd, compatDim, Buffer.dim]
        simp
        omega
      · simp only [Buffer.set, if_pos hi, if_neg hd, compatDim, Buffer.dim]
        simp
        omega

lemma Buffer.set_err_shape {b : Buffer} {i : ℕ} {v : Val} {e : Err}
    (hi : i < b.firstLen) (h : b.set i v = .error e) : e = .shapeMismatch := by
  rcases b with data | ⟨d, rows⟩
  · replace hi : i < data.length := hi
    rcases v with x | (_ | ⟨x, _ | ⟨y, t⟩⟩) <;>
      simp only [Buffer.set, if_pos hi] at h
    · simp at h
    · injection h with h2
      exact h2.symm
    · simp at h
    · injection h with h2
      exact h2.symm
  · replace hi : i < rows.length := hi
    rcases v with x | (_ | ⟨x, _ | ⟨y, t⟩⟩) <;>
      simp only [Buffer.set, if_pos hi] at h
    · simp at h
    · split_ifs at h with hd
      injection h with h2
      exact h2.symm
    · simp at h
    · split_ifs at h with hd
      injection h with h2
      exact h2.symm

lemma Buffer.set_row0 {b b' : Buffer} {i : ℕ} {v : Val}
    (hi : 1 ≤ i) (h : b.set i v = .ok b') : b'.row0 = b.row0 := by
  rcases b with data | ⟨d, rows⟩ <;>
    rcases v with x | (_ | ⟨x, _ | ⟨y, t⟩⟩) <;>
    simp only [Buffer.set] at h <;>
    split_ifs at h <;>
    (cases h
     simp [Buffer.row0, head?_set _ _ _ hi])

lemma written_oneD_set {data : List (Option ℝ)} {i : ℕ} {x c : ℝ}
    (hc : c ∈ (Buffer.oneD (data.set i (some x))).written) :
    c ∈ (Buffer.oneD data).written ∨ c = x := by
  rcases List.mem_filterMap.mp hc with ⟨a, ha, hae⟩
  rcases List.mem_or_eq_of_mem_set ha with ha' | rfl
  · exact Or.inl (List.mem_filterMap.mpr ⟨a, ha', hae⟩)
  · cases hae
    exact Or.inr rfl

lemma written_twoD_set {d : ℕ} {rows : List (Option (List ℝ))} {i : ℕ}
    {r : List ℝ} {c : ℝ}
    (hc : c ∈ (Buffer.twoD d (rows.set i (some r))).written) :
    c ∈ (Buffer.twoD d rows).written ∨ c ∈ r := by
  rcases List.mem_flatten.mp hc with ⟨r', hr', hcr⟩
  rcases List.mem_filterMap.mp hr' with ⟨a, ha, hae⟩
  rcases List.mem_or_eq_of_mem_set ha with ha' | rfl
  · exact Or.inl (List.mem_flatten.mpr ⟨r', List.mem_filterMap.mpr ⟨a, ha', hae⟩, hcr⟩)
  · cases hae
    exact Or.inr hcr

lemma Buffer.set_written {b b' : Buffer} {i : ℕ} {v : Val}
    (h : b.set i v = .ok b') :
    ∀ c ∈ b'.written, c ∈ b.written ∨ c ∈ v.cells := by
  rcases b with data | ⟨d, rows⟩ <;>
    rcases v with x | (_ | ⟨x, _ | ⟨y, t⟩⟩) <;>
    simp only [Buffer.set] at h <;>
    split_ifs at h <;>
    cases h <;>
    intro c hc
  · rcases written_oneD_set hc with h' | rfl
    · exact Or.inl h'
    · simp [Val.cells]
  · rcases written_oneD_set hc with h' | rfl
    · exact Or.inl h'
    · simp [Val.cells]
  · rcases written_twoD_set hc with h' | hr
    · exact Or.inl h'
    · rcases List.eq_of_mem_replicate hr with rfl
      simp [Val.cells]
  · rcases written_twoD_set hc with h' | hr
    · exact Or.inl h'
    · simp at hr
  · rcases written_twoD_set hc with h' | hr
    · exact Or.inl h'
    · rcases List.eq_of_mem_replicate hr with rfl
      simp [Val.cells]
  · rcases written_twoD_set hc with h' | hr
    · exact Or.inl h'
    · exact Or.inr hr

/-! Facts about the allocation step. -/

lemma npEmptyFor_error {f : Val} {n : ℤ} {e : Err}
    (h : npEmptyFor f n = .error e) : e = .negativeDimension ∧ n < 0 := by
  cases f with
  | scalar x =>
      by_cases hn : n < 0
      · simp only [npEmptyFor, if_pos hn] at h
        injection h with h2
        exact ⟨h2.symm, hn⟩
      · simp [npEmptyFor, if_neg hn] at h
  | vec xs =>
      by_cases hn : n < 0
      · simp only [npEmptyFor, if_pos hn] at h
        injection h with h2
        exact ⟨h2.symm, hn⟩
      · simp [npEmptyFor, if_neg hn] at h

lemma npEmptyFor_ok {f : Val} {n : ℤ} {b : Buffer}
    (h : npEmptyFor f n = .ok b) :
    b.firstLen = n.toNat ∧ b.dim = f.dim ∧ b.written = [] := by
  cases f with
  | scalar x =>
      by_cases hn : n < 0
      · simp [npEmptyFor, if_pos hn] at h
      · simp only [npEmptyFor, if_neg hn] at h
        injection h with h2
        subst h2
        exact ⟨by simp [Buffer.firstLen], by simp [Buffer.dim, Val.dim],
          by simp [Buffer.written, filterMap_id_replicate_none]⟩
  | vec xs =>
      by_cases hn : n < 0
      · simp [npEmptyFor, if_pos hn] at h
      · simp only [npEmptyFor, if_neg hn] at h
        injection h with h2
        subst h2
        exact ⟨by simp [Buffer.firstLen], by simp [Buffer.dim, Val.dim],
          by simp [Buffer.written, filterMap_id_replicate_none]⟩

/-! Facts about the storage loop. -/

lemma gIter_shift (drawFn : G → Val × G) (g : G) (j : ℕ) :
    gIter drawFn ((drawFn g).2) j = gIter drawFn g (j + 1) := by
  induction j with
  | zero => rfl
  | succ m ih => simp [gIter, ih]

lemma drawAt_shift (drawFn : G → Val × G) (g : G) (j : ℕ) :
    drawAt drawFn ((drawFn g).2) j = drawAt drawFn g (j + 1) := by
  simp [drawAt, gIter_shift]

lemma runLoop_preserve (drawFn : G → Val × G) (l : List ℕ) (b : Buffer) (g : G)
    (hl : ∀ i ∈ l, 1 ≤ i) :
    (runLoop drawFn l b g).1.firstLen = b.firstLen ∧
      (runLoop drawFn l b g).1.dim = b.dim ∧
      (runLoop drawFn l b g).1.row0 = b.row0 := by
  induction l generalizing b g with
  | nil => exact ⟨rfl, rfl, rfl⟩
  | cons i rest ih =>
      have hi : 1 ≤ i := hl i (by simp)
      have hrest : ∀ j ∈ rest, 1 ≤ j := fun j hj => hl j (by simp [hj])
      simp only [runLoop]
      cases hset : b.set i (drawFn g).1 with
      | error e => exact ⟨rfl, rfl, rfl⟩
      | ok b' =>
          have hshape := Buffer.set_ok_shape hset
          have hrow := Buffer.set_row0 hi hset
          rcases ih b' (drawFn g).2 hrest with ⟨h1, h2, h3⟩
          exact ⟨h1.trans hshape.1, h2.trans hshape.2, h3.trans hrow⟩

lemma runLoop_none_iff (drawFn : G → Val × G) (l : List ℕ) (b : Buffer) (g : G)
    (hl : ∀ i ∈ l, i < b.firstLen) :
    (runLoop drawFn l b g).2.2 = none ↔
      ∀ j, j < l.length → compatDim b.dim (drawAt drawFn g j) := by
  induction l generalizing b g with
  | nil => simp [runLoop]
  | cons i rest ih =>
      have hi : i < b.firstLen := hl i (by simp)
      have hrest : ∀ j ∈ rest, j < b.firstLen := fun j hj => hl j (by simp [hj])
      simp only [runLoop]
      cases hset : b.set i (drawFn g).1 with
      | error e =>
          simp only [List.length_cons]
          constructor
          · intro hcon
            cases hcon
          · intro hall
            have h0 : compatDim b.dim (drawAt drawFn g 0) := hall 0 (by omega)
            have : ∃ b', b.set i (drawFn g).1 = .ok b' :=
              (Buffer.set_ok_iff hi).mpr h0
            rcases this with ⟨b', hb'⟩
            rw [hset] at hb'
            cases hb'
      | ok b' =>
          have hshape := Buffer.set_ok_shape hset
          have h0 : compatDim b.dim (drawAt drawFn g 0) :=
            (Buffer.set_ok_iff hi).mp ⟨b', hset⟩
          have hrest' : ∀ j ∈ rest, j < b'.firstLen := fun j hj =>
            hshape.1 ▸ hrest j hj
          rw [ih b' (drawFn g).2 hrest']
          constructor
          · intro hall j hj
            cases j with
            | zero => exact h0
            | succ m =>
                have := hall m (by simpa using hj)
                rw [drawAt_shift] at this
                rw [← hshape.2]
                exact this
          · intro hall j hj
            have := hall (j + 1) (by simpa using hj)
            rw [← drawAt_shift] at this
            rw [hshape.2]
            exact this

lemma runLoop_err_shape (drawFn : G → Val × G) (l : List ℕ) (b : Buffer) (g : G)
    (hl : ∀ i ∈ l, i < b.firstLen) {e : Err}
    (h : (runLoop drawFn l b g).2.2 = some e) : e = .shapeMismatch := by
  induction l generalizing b g with
  | nil => simp [runLoop] at h
  | cons i rest ih =>
      have hi : i < b.firstLen := hl i (by simp)
      have hrest : ∀ j ∈ rest, j < b.firstLen := fun j hj => hl j (by simp [hj])
      simp only [runLoop] at h
      cases hset : b.set i (drawFn g).1 with
      | error e' =>
          rw [hset] at h
          simp only [Option.some.injEq] at h
          cases h
          exact Buffer.set_err_shape hi hset
      | ok b' =>
          rw [hset] at h
          have hshape := Buffer.set_ok_shape hset
          exact ih b' (drawFn g).2 (fun j hj => hshape.1 ▸ hrest j hj) h

lemma runLoop_written (drawFn : G → Val × G) (l : List ℕ) (b : Buffer) (g : G)
    {Q : Val → Prop} (hQ : ∀ g', Q ((drawFn g').1))
    (hb : ∀ c ∈ b.written, ∃ v, Q v ∧ c ∈ v.cells) :
    ∀ c ∈ ((runLoop drawFn l b g).1).written, ∃ v, Q v ∧ c ∈ v.cells := by
  induction l generalizing b g with
  | nil => exact hb
  | cons i rest ih =>
      simp only [runLoop]
      cases hset : b.set i (drawFn g).1 with
      | error e => exact hb
      | ok b' =>
          refine ih b' (drawFn g).2 ?_
          intro c hc
          rcases Buffer.set_written hset c hc with hold | hnew
          · exact hb c hold
          · exact ⟨(drawFn g).1, hQ g, hnew⟩

/-! Facts about the batch routine. -/

lemma sample_state_dep (drawFn : G → Val × G) (seedFn : ℤ → G) (n : ℤ)
    (seed : Option ℤ) (st₁ st₂ : State G)
    (h : effGen seedFn seed st₁.g = effGen seedFn seed st₂.g) :
    (sample drawFn seedFn n seed st₁).2 = (sample drawFn seedFn n seed st₂).2 ∧
    (sample drawFn seedFn n seed st₁).1.g = (sample drawFn seedFn n seed st₂).1.g ∧
    ((sample drawFn seedFn n seed st₁).2 = .error .negativeDimension ∨
      (sample drawFn seedFn n seed st₁).1.samples
        = (sample drawFn seedFn n seed st₂).1.samples) := by
  simp only [sample]
  rw [h]
  cases hE : npEmptyFor ((drawFn (effGen seedFn seed st₂.g)).1) n with
  | error e =>
      refine ⟨rfl, rfl, Or.inl ?_⟩
      simp [(npEmptyFor_error hE).1]
  | ok buf0 =>
      cases hS : buf0.set 0 ((drawFn (effGen seedFn seed st₂.g)).1) with
      | error e => exact ⟨rfl, rfl, Or.inr rfl⟩
      | ok buf1 =>
          rcases hR : runLoop drawFn (loopIndices n) buf1
              ((drawFn (effGen seedFn seed st₂.g)).2) with ⟨buf2, g2, oe⟩
          cases oe <;> exact ⟨rfl, rfl, Or.inr rfl⟩

lemma compatDim_self (v : Val) : compatDim v.dim v := by
  cases v with
  | scalar x => trivial
  | vec xs => exact Or.inl rfl

lemma Buffer.set0_row0 {b b' : Buffer} {v : Val}
    (h : b.set 0 v = .ok b') (hdim : b.dim = v.dim) (hlen : 0 < b.firstLen) :
    b'.row0 = some v := by
  rcases b with data | ⟨d, rows⟩
  · rcases v with x | xs
    · rcases data with _ | ⟨c, t⟩
      · exact absurd hlen (by simp [Buffer.firstLen])
      · simp only [Buffer.set, if_pos (by simp : 0 < (c :: t).length)] at h
        cases h
        simp [Buffer.row0]
    · exact absurd hdim (by simp [Buffer.dim, Val.dim])
  · rcases v with x | xs
    · exact absurd hdim (by simp [Buffer.dim, Val.dim])
    · have hd : d = xs.length := by
        simpa [Buffer.dim, Val.dim] using hdim
      rcases rows with _ | ⟨r, rs⟩
      · exact absurd hlen (by simp [Buffer.firstLen])
      · rcases xs with _ | ⟨x, _ | ⟨y, t⟩⟩
        · have hd0 : d = 0 := by simpa using hd
          subst hd0
          simp only [Buffer.set, if_pos (by simp : 0 < (r :: rs).length),
            if_pos rfl] at h
          cases h
          simp [Buffer.row0]
        · have hd1 : d = 1 := by simpa using hd
          subst hd1
          simp only [Buffer.set, if_pos (by simp : 0 < (r :: rs).length)] at h
          cases h
          simp [Buffer.row0, List.replicate]
        · have hd2 : t.length + 2 = d := by
            simp at hd
            omega
          subst hd2
          simp only [Buffer.set, if_pos (by simp : 0 < (r :: rs).length),
            if_pos rfl] at h
          cases h
          simp [Buffer.row0]

lemma sample_pos (drawFn : G → Val × G) (seedFn : ℤ → G) (n : ℤ)
    (seed : Option ℤ) (st : State G) (hn : 1 ≤ n) :
    ∃ b1 : Buffer,
      b1.firstLen = n.toNat ∧
      b1.dim = ((drawFn (effGen seedFn seed st.g)).1).dim ∧
      b1.row0 = some ((drawFn (effGen seedFn seed st.g)).1) ∧
      (∀ c ∈ b1.written, c ∈ ((drawFn (effGen seedFn seed st.g)).1).cells) ∧
      sample drawFn seedFn n seed st =
        (match runLoop drawFn (loopIndices n) b1
            ((drawFn (effGen seedFn seed st.g)).2) with
         | (b2, g2, some e) => (⟨some b2, g2⟩, .error e)
         | (b2, g2, none) => (⟨some b2, g2⟩, .ok b2)) := by
  have hnn : ¬ n < 0 := by omega
  have hE : ∃ b0, npEmptyFor (drawFn (effGen seedFn seed st.g)).1 n = .ok b0 := by
    cases (drawFn (effGen seedFn seed st.g)).1 with
    | scalar x =>
        refine ⟨.oneD (List.replicate n.toNat none), ?_⟩
        simp [npEmptyFor, if_neg hnn]
    | vec xs =>
        refine ⟨.twoD xs.length (List.replicate n.toNat none), ?_⟩
        simp [npEmptyFor, if_neg hnn]
  rcases hE with ⟨b0, hE⟩
  rcases npEmptyFor_ok hE with ⟨hlen0, hdim0, hwr0⟩
  have hlen0' : 0 < b0.firstLen := by omega
  have hS : ∃ b1, b0.set 0 ((drawFn (effGen seedFn seed st.g)).1) = .ok b1 :=
    (Buffer.set_ok_iff hlen0').mpr
      (hdim0 ▸ compatDim_self ((drawFn (effGen seedFn seed st.g)).1))
  rcases hS with ⟨b1, hS⟩
  rcases Buffer.set_ok_shape hS with ⟨hlen1, hdim1⟩
  refine ⟨b1, by omega, hdim1.trans hdim0,
    Buffer.set0_row0 hS hdim0 hlen0', ?_, ?_⟩
  · intro c hc
    rcases Buffer.set_written hS c hc with hold | hnew
    · rw [hwr0] at hold
      cases hold
    · exact hnew
  · simp only [sample, hE, hS]

lemma compat_of_dim_eq {D : Option ℕ} {v : Val} (h : D = v.dim) : compatDim D v :=
  h ▸ compatDim_self v

lemma sample_neg (drawFn : G → Val × G) (seedFn : ℤ → G) (n : ℤ)
    (seed : Option ℤ) (st : State G) (hn : n < 0) :
    sample drawFn seedFn n seed st =
      (⟨st.samples, (drawFn (effGen seedFn seed st.g)).2⟩,
        .error .negativeDimension) := by
  have hE : npEmptyFor (drawFn (effGen seedFn seed st.g)).1 n
      = .error .negativeDimension := by
    cases (drawFn (effGen seedFn seed st.g)).1 <;> simp [npEmptyFor, if_pos hn]
  simp only [sample, hE]

lemma sample_zero (drawFn : G → Val × G) (seedFn : ℤ → G)
    (seed : Option ℤ) (st : State G) :
    (sample drawFn seedFn 0 seed st).2 = .error .indexOutOfBounds ∧
    (sample drawFn seedFn 0 seed st).1.g = (drawFn (effGen seedFn seed st.g)).2 ∧
    ∃ b, (sample drawFn seedFn 0 seed st).1.samples = some b ∧ b.firstLen = 0 := by
  cases hf : (drawFn (effGen seedFn seed st.g)).1 with
  | scalar x =>
      have hE : npEmptyFor (drawFn (effGen seedFn seed st.g)).1 0
          = .ok (.oneD []) := by
        rw [hf]
        simp [npEmptyFor]
      have hS : Buffer.set (.oneD []) 0 (drawFn (effGen seedFn seed st.g)).1
          = .error .indexOutOfBounds := by
        rw [hf]
        simp [Buffer.set]
      simp only [sample, hE, hS]
      exact ⟨trivial, trivial, ⟨.oneD [], rfl, rfl⟩⟩
  | vec xs =>
      have hE : npEmptyFor (drawFn (effGen seedFn seed st.g)).1 0
          = .ok (.twoD xs.length []) := by
        rw [hf]
        simp [npEmptyFor]
      have hS : Buffer.set (.twoD xs.length []) 0 (drawFn (effGen seedFn seed st.g)).1
          = .error .indexOutOfBounds := by
        rw [hf]
        rcases xs with _ | ⟨x, _ | ⟨y, t⟩⟩ <;> simp [Buffer.set]
      simp only [sample, hE, hS]
      exact ⟨trivial, trivial, ⟨.twoD xs.length [], rfl, rfl⟩⟩

/-! Facts about the accept/reject loop `draw`. -/

lemma draw_accept_step {α : Type u} (propose : ℕ → α) (thr : ℕ → ℝ) (q p : α → ℝ)
    (m k : ℕ) (h : iterAccepts propose thr q p k) :
    draw propose thr q p (m + 1) k = some (propose k) := by
  simp only [draw]
  rw [if_pos h.1, if_pos h.2]

lemma draw_not_accept_step {α : Type u} (propose : ℕ → α) (thr : ℕ → ℝ) (q p : α → ℝ)
    (m k : ℕ) (h : ¬ iterAccepts propose thr q p k) :
    draw propose thr q p (m + 1) k = draw propose thr q p m (k + 1) := by
  simp only [draw]
  by_cases h1 : MIN ≤ q (propose k)
  · rw [if_pos h1]
    by_cases h2 : Real.log (thr k) < p (propose k)
    · exact absurd ⟨h1, h2⟩ h
    · rw [if_neg h2]
  · rw [if_neg h1]

lemma draw_congr_thr {α : Type u} (propose : ℕ → α) (thr thr' : ℕ → ℝ) (q p : α → ℝ)
    (fuel k : ℕ) (h : ∀ j, k ≤ j → thr' j = thr j) :
    draw propose thr' q p fuel k = draw propose thr q p fuel k := by
  induction fuel generalizing k with
  | zero => rfl
  | succ m ih =>
      simp only [draw]
      rw [h k le_rfl]
      by_cases h1 : MIN ≤ q (propose k)
      · rw [if_pos h1, if_pos h1]
        by_cases h2 : Real.log (thr k) < p (propose k)
        · rw [if_pos h2, if_pos h2]
        · rw [if_neg h2, if_neg h2]
          exact ih (k + 1) (fun j hj => h j (by omega))
      · rw [if_neg h1, if_neg h1]
        exact ih (k + 1) (fun j hj => h j (by omega))

lemma draw_eq_some_iff {α : Type u} (propose : ℕ → α) (thr : ℕ → ℝ) (q p : α → ℝ)
    (fuel k0 : ℕ) (x : α) :
    draw propose thr q p fuel k0 = some x ↔
      ∃ k, k0 ≤ k ∧ k < k0 + fuel ∧ iterAccepts propose thr q p k ∧
        (∀ j, k0 ≤ j → j < k → ¬ iterAccepts propose thr q p j) ∧
        x = propose k := by
  induction fuel generalizing k0 with
  | zero =>
      simp only [draw]
      constructor
      · intro hx
        cases hx
      · rintro ⟨k, hk1, hk2, -, -, -⟩
        omega
  | succ m ih =>
      by_cases hacc : iterAccepts propose thr q p k0
      · rw [draw_accept_step _ _ _ _ _ _ hacc]
        constructor
        · intro hx
          injection hx with hx
          exact ⟨k0, le_rfl, by omega, hacc,
            fun j hj1 hj2 => absurd hj1 (by omega), hx.symm⟩
        · rintro ⟨k, hk1, hk2, hkacc, hkmin, rfl⟩
          by_cases hke : k = k0
          · subst hke
            rfl
          · exact absurd hacc (hkmin k0 le_rfl (by omega))
      · rw [draw_not_accept_step _ _ _ _ _ _ hacc, ih (k0 + 1)]
        constructor
        · rintro ⟨k, hk1, hk2, hkacc, hkmin, rfl⟩
          refine ⟨k, by omega, by omega, hkacc, ?_, rfl⟩
          intro j hj1 hj2
          rcases Nat.eq_or_lt_of_le hj1 with he | hlt
          · exact he ▸ hacc
          · exact hkmin j hlt hj2
        · rintro ⟨k, hk1, hk2, hkacc, hkmin, rfl⟩
          have hk0 : k ≠ k0 := fun he => hacc (he ▸ hkacc)
          exact ⟨k, by omega, by omega, hkacc,
            fun j hj1 hj2 => hkmin j (by omega) hj2, rfl⟩

lemma draw_some_accepted {α : Type u} {propose : ℕ → α} {thr : ℕ → ℝ} {q p : α → ℝ}
    {fuel k0 : ℕ} {x : α} (h : draw propose thr q p fuel k0 = some x) :
    ∃ k, x = propose k ∧ MIN ≤ q x ∧ Real.log (thr k) < p x := by
  rcases (draw_eq_some_iff propose thr q p fuel k0 x).mp h with
    ⟨k, -, -, ⟨h1, h2⟩, -, rfl⟩
  exact ⟨k, rfl, h1, h2⟩

/-! Claim C1. -/

/-- C1 (counterexample): the claim states that `sample(0, seed)` returns an
empty buffer without invoking `draw()` and with no shape-inference step.  In
the code, with a draw function that returns a scalar and counts its
invocations in the generator state, `sample(0)` performs one draw (the
generator advances from 0 to 1), allocates the empty buffer (shape inference
did run: `self.samples` holds the freshly allocated empty 1-D buffer), and
then fails with the IndexError from the store `self.samples[0] = first`
instead of returning the empty buffer. -/
theorem C1_cex :
    sample (G := ℕ) (fun g => (Val.scalar 0, g + 1)) (fun _ => 0) 0 none ⟨none, 0⟩
      = (⟨some (.oneD []), 1⟩, .error .indexOutOfBounds) := rfl

/-- C1 (amended): when every draw has the same dimensionality, `sample(n,
seed)` returns a buffer of first-axis length n for every n ≥ 1; for n = 0 it
does invoke `draw()` once (the final generator state is the state after one
draw), allocates a length-0 buffer into `self.samples`, and fails with an
index-out-of-bounds error instead of returning the empty buffer. -/
theorem C1_thm (drawFn : G → Val × G) (seedFn : ℤ → G) (n : ℤ)
    (seed : Option ℤ) (st : State G)
    (hdim : ∀ g g' : G, ((drawFn g).1).dim = ((drawFn g').1).dim) :
    (1 ≤ n → ∃ buf, (sample drawFn seedFn n seed st).2 = .ok buf ∧
      buf.firstLen = n.toNat) ∧
    (n = 0 → (sample drawFn seedFn n seed st).2 = .error .indexOutOfBounds ∧
      (sample drawFn seedFn n seed st).1.g = (drawFn (effGen seedFn seed st.g)).2 ∧
      ∃ b, (sample drawFn seedFn n seed st).1.samples = some b ∧ b.firstLen = 0) := by
  constructor
  · intro hn
    rcases sample_pos drawFn seedFn n seed st hn with
      ⟨b1, hlen, hdim1, hrow0, hwr, heq⟩
    have hmem : ∀ i ∈ loopIndices n, i < b1.firstLen := by
      intro i hi
      rw [loopIndices, List.mem_range'_1] at hi
      omega
    have hone : ∀ i ∈ loopIndices n, 1 ≤ i := by
      intro i hi
      rw [loopIndices, List.mem_range'_1] at hi
      omega
    have hnone : (runLoop drawFn (loopIndices n) b1
        ((drawFn (effGen seedFn seed st.g)).2)).2.2 = none := by
      rw [runLoop_none_iff drawFn _ _ _ hmem]
      intro j hj
      refine compat_of_dim_eq ?_
      rw [hdim1]
      exact hdim _ _
    have hpre := runLoop_preserve drawFn (loopIndices n) b1
      ((drawFn (effGen seedFn seed st.g)).2) hone
    rcases hR : runLoop drawFn (loopIndices n) b1
        ((drawFn (effGen seedFn seed st.g)).2) with ⟨b2, g2, oe⟩
    rw [hR] at hnone hpre heq
    cases oe with
    | some e => cases hnone
    | none =>
        refine ⟨b2, ?_, ?_⟩
        · rw [heq]
        · rw [hpre.1, hlen]
  · intro hn
    subst hn
    exact sample_zero drawFn seedFn seed st

/-- C1 (witness): with a scalar-valued draw function and n = 3, the amended
theorem yields a buffer of first-axis length 3. -/
theorem C1_wit :
    (1 ≤ (3 : ℤ)) ∧
    ∃ buf, (sample (G := ℕ) (fun g => (Val.scalar 1, g + 1)) (fun _ => 0) 3 none
        ⟨none, 0⟩).2 = .ok buf ∧ buf.firstLen = (3 : ℤ).toNat :=
  ⟨by norm_num,
   (C1_thm (fun g => (Val.scalar 1, g + 1)) (fun _ => 0) 3 none ⟨none, 0⟩
      (fun _ _ => rfl)).1 (by norm_num)⟩

/-! Claim C2. -/

/-- C2 (counterexample): the claim states that `sample(n, seed)` with n < 0
fails before any draw is attempted.  With a draw function that counts its
invocations in the generator state, `sample(-1)` does fail with the
invalid-argument (negative-dimension) error, but the final generator state is
1, not 0: one draw was performed before the failure. -/
theorem C2_cex :
    sample (G := ℕ) (fun g => (Val.scalar 0, g + 1)) (fun _ => 0) (-1) none ⟨none, 0⟩
      = (⟨none, 1⟩, .error .negativeDimension) := rfl

/-- C2 (amended): for every n < 0, `sample` fails with the invalid-argument
negative-dimension error raised by the allocation, leaves `self.samples`
unchanged, and has performed exactly one draw before failing (the final
generator state is the draw's post-state). -/
theorem C2_thm (drawFn : G → Val × G) (seedFn : ℤ → G) (n : ℤ)
    (seed : Option ℤ) (st : State G) (hn : n < 0) :
    sample drawFn seedFn n seed st =
      (⟨st.samples, (drawFn (effGen seedFn seed st.g)).2⟩,
        .error .negativeDimension) :=
  sample_neg drawFn seedFn n seed st hn

/-- C2 (witness): the amended theorem at n = -3 on a counting draw
function. -/
theorem C2_wit :
    ((-3 : ℤ) < 0) ∧
    sample (G := ℕ) (fun g => (Val.scalar 0, g + 1)) (fun _ => 0) (-3) none ⟨none, 5⟩
      = (⟨none, 6⟩, .error .negativeDimension) :=
  ⟨by norm_num,
   C2_thm (fun g => (Val.scalar 0, g + 1)) (fun _ => 0) (-3) none ⟨none, 5⟩
     (by norm_num)⟩

/-! Claim C3. -/

/-- C3 (counterexample): the claim states that every candidate whose proposal
log-density is at or below the floor `MIN` is resampled without being
acceptance-tested.  In the code the guard is `upper >= MIN`, so a candidate
with `u = MIN` exactly (at the floor) does enter the acceptance test: with a
threshold 2^(-1023), which lies in the open interval (0, exp MIN), the
candidate is accepted on the spot rather than resampled. -/
theorem C3_cex :
    MIN ≤ MIN ∧
    (0 : ℝ) < (2 : ℝ) ^ (-1023 : ℤ) ∧
    (2 : ℝ) ^ (-1023 : ℤ) < Real.exp MIN ∧
    draw (fun _ : ℕ => (0 : ℝ)) (fun _ => (2 : ℝ) ^ (-1023 : ℤ)) (fun _ => MIN)
      (fun _ => 0) 1 0 = some 0 := by
  refine ⟨le_rfl, by positivity, ?_, ?_⟩
  · rw [exp_MIN]
    exact zpow_lt_zpow_right₀ (by norm_num) (by norm_num)
  · apply draw_accept_step
    refine ⟨le_rfl, ?_⟩
    show Real.log ((2 : ℝ) ^ (-1023 : ℤ)) < 0
    have hlog : Real.log ((2 : ℝ) ^ (-1023 : ℤ)) = -1023 * Real.log 2 := by
      rw [Real.log_zpow]
      norm_num
    rw [hlog]
    have h2 : 0 < Real.log 2 := Real.log_pos (by norm_num)
    nlinarith

/-- C3 (amended): every candidate whose proposal log-density is strictly
below the floor `MIN` is resampled without being acceptance-tested: such an
iteration can never accept, and the loop moves on to the next candidate
without consulting the threshold stream at that iteration (any thresholds
agreeing from the next iteration on give the same continuation). -/
theorem C3_thm {α : Type u} (propose : ℕ → α) (thr : ℕ → ℝ) (q p : α → ℝ)
    (k : ℕ) (h : q (propose k) < MIN) :
    ¬ iterAccepts propose thr q p k ∧
    ∀ (fuel : ℕ) (thr' : ℕ → ℝ), (∀ j, k < j → thr' j = thr j) →
      draw propose thr' q p (fuel + 1) k = draw propose thr q p fuel (k + 1) := by
  have hno : ¬ iterAccepts propose thr q p k :=
    fun hacc => absurd hacc.1 (not_le.mpr h)
  refine ⟨hno, fun fuel thr' hagree => ?_⟩
  have hno' : ¬ iterAccepts propose thr' q p k :=
    fun hacc => absurd hacc.1 (not_le.mpr h)
  rw [draw_not_accept_step _ _ _ _ _ _ hno']
  exact draw_congr_thr propose thr thr' q p fuel (k + 1)
    (fun j hj => hagree j (by omega))

/-- C3 (witness): the amended theorem at a candidate whose proposal
log-density is MIN - 1, strictly below the floor. -/
theorem C3_wit :
    (MIN - 1 < MIN) ∧
    (¬ iterAccepts (fun _ : ℕ => (0 : ℝ)) (fun _ => (1 : ℝ)) (fun _ => MIN - 1)
        (fun _ => 0) 0 ∧
      ∀ (fuel : ℕ) (thr' : ℕ → ℝ), (∀ j, 0 < j → thr' j = (fun _ => (1 : ℝ)) j) →
        draw (fun _ : ℕ => (0 : ℝ)) thr' (fun _ => MIN - 1) (fun _ => 0) (fuel + 1) 0
          = draw (fun _ : ℕ => (0 : ℝ)) (fun _ => (1 : ℝ)) (fun _ => MIN - 1)
              (fun _ => 0) fuel 1) :=
  ⟨by norm_num,
   C3_thm (fun _ : ℕ => (0 : ℝ)) (fun _ => (1 : ℝ)) (fun _ => MIN - 1)
     (fun _ => 0) 0 (by norm_num)⟩

/-! Claim C4. -/

/-- C4: the loop of `draw` started at iteration 0 returns the candidate x
within the given fuel if and only if, at some iteration k, x is the k-th
value produced by the proposal sampler, its proposal log-density is not below
the floor `MIN`, the logarithm of the threshold drawn at that iteration is
strictly below the target log-density at x, and every earlier iteration
failed its guard-and-acceptance test (each failing candidate is discarded and
the loop retries). -/
theorem C4_thm {α : Type u} (propose : ℕ → α) (thr : ℕ → ℝ) (q p : α → ℝ)
    (fuel : ℕ) (x : α) :
    draw propose thr q p fuel 0 = some x ↔
      ∃ k, k < fuel ∧
        (MIN ≤ q (propose k) ∧ Real.log (thr k) < p (propose k)) ∧
        (∀ j, j < k → ¬ (MIN ≤ q (propose j) ∧ Real.log (thr j) < p (propose j))) ∧
        x = propose k := by
  rw [draw_eq_some_iff]
  constructor
  · rintro ⟨k, -, hk2, hacc, hmin, rfl⟩
    exact ⟨k, by omega, hacc, fun j hj => hmin j (by omega) hj, rfl⟩
  · rintro ⟨k, hk, hacc, hmin, rfl⟩
    exact ⟨k, by omega, by omega, hacc, fun j hj1 hj2 => hmin j hj2, rfl⟩

/-! Claim C5. -/

/-- C5: if every value the draw routine hands to `sample` is a value that
`draw` can return (for some fuel and start iteration), then every element
written into the returned sample buffer comes from a candidate of the
proposal stream that passed the log-space acceptance test `log t < p x`
against the same target log-density p supplied at construction (with its
proposal log-density clearing the floor). -/
theorem C5_thm {G : Type v} (propose : ℕ → Val) (thr : ℕ → ℝ) (q p : Val → ℝ)
    (drawFn : G → Val × G) (seedFn : ℤ → G) (n : ℤ) (seed : Option ℤ)
    (st : State G) (buf : Buffer)
    (hdraw : ∀ g : G, ∃ fuel k0, draw propose thr q p fuel k0 = some ((drawFn g).1))
    (hok : (sample drawFn seedFn n seed st).2 = .ok buf) :
    ∀ c ∈ buf.written,
      ∃ v, (∃ k, v = propose k ∧ MIN ≤ q v ∧ Real.log (thr k) < p v) ∧
        c ∈ v.cells := by
  have hQ : ∀ g : G, ∃ k, (drawFn g).1 = propose k ∧ MIN ≤ q ((drawFn g).1) ∧
      Real.log (thr k) < p ((drawFn g).1) := by
    intro g
    rcases hdraw g with ⟨fuel, k0, hd⟩
    rcases draw_some_accepted hd with ⟨k, hk, h1, h2⟩
    exact ⟨k, hk, h1, h2⟩
  have hn : 1 ≤ n := by
    by_contra hcon
    push_neg at hcon
    rcases lt_or_eq_of_le (by omega : n ≤ 0) with hlt | heq0
    · have := sample_neg drawFn seedFn n seed st hlt
      rw [this] at hok
      cases hok
    · subst heq0
      rw [(sample_zero drawFn seedFn seed st).1] at hok
      cases hok
  rcases sample_pos drawFn seedFn n seed st hn with
    ⟨b1, hlen, hdim1, hrow0, hwr, heq⟩
  rcases hR : runLoop drawFn (loopIndices n) b1
      ((drawFn (effGen seedFn seed st.g)).2) with ⟨b2, g2, oe⟩
  rw [hR] at heq
  have hloop := runLoop_written drawFn (loopIndices n) b1
    ((drawFn (effGen seedFn seed st.g)).2)
    (Q := fun v => ∃ k, v = propose k ∧ MIN ≤ q v ∧ Real.log (thr k) < p v)
    (fun g' => hQ g')
    (fun c hc => ⟨(drawFn (effGen seedFn seed st.g)).1,
      hQ (effGen seedFn seed st.g), hwr c hc⟩)
  rw [hR] at hloop
  cases oe with
  | some e =>
      rw [heq] at hok
      cases hok
  | none =>
      rw [heq] at hok
      injection hok with hok
      subst hok
      exact hloop

/-- C5 (witness): a constant scalar draw, which `draw` returns with fuel 1
(its proposal log-density 0 clears the floor and log(1/2) < 0), sampled with
n = 2; both written cells trace back to an accepted candidate. -/
theorem C5_wit :
    (∀ g : ℕ, ∃ fuel k0,
      draw (fun _ => Val.scalar 1) (fun _ => (1 / 2 : ℝ)) (fun _ => (0 : ℝ))
        (fun _ => (0 : ℝ)) fuel k0
        = some ((fun g' : ℕ => (Val.scalar (1 : ℝ), g' + 1)) g).1) ∧
    ∀ c ∈ (Buffer.oneD [some 1, some 1]).written,
      ∃ v, (∃ _k : ℕ, v = Val.scalar (1 : ℝ) ∧ MIN ≤ (0 : ℝ) ∧
        Real.log (1 / 2) < (0 : ℝ)) ∧ c ∈ v.cells := by
  have hdraw : ∀ g : ℕ, ∃ fuel k0,
      draw (fun _ => Val.scalar 1) (fun _ => (1 / 2 : ℝ)) (fun _ => (0 : ℝ))
        (fun _ => (0 : ℝ)) fuel k0
        = some ((fun g' : ℕ => (Val.scalar (1 : ℝ), g' + 1)) g).1 := by
    intro g
    refine ⟨1, 0, draw_accept_step _ _ _ _ 0 0 ⟨MIN_neg.le, ?_⟩⟩
    exact Real.log_neg (by norm_num) (by norm_num)
  refine ⟨hdraw, ?_⟩
  exact C5_thm (fun _ => Val.scalar 1) (fun _ => (1 / 2 : ℝ)) (fun _ => (0 : ℝ))
    (fun _ => (0 : ℝ)) (fun g' : ℕ => (Val.scalar (1 : ℝ), g' + 1)) (fun _ => 0)
    2 none ⟨none, 0⟩ (Buffer.oneD [some 1, some 1]) hdraw rfl

/-! Claim C6. -/

/-- C6: for n ≥ 1, the buffer stored by `sample` has first-axis length n, its
secondary dimension is the dimensionality of the first draw (`none`, i.e.
shape (n,), when the first draw is a scalar; `some d`, i.e. shape (n, d),
when it is a length-d sequence), and the first draw is stored at index 0. -/
theorem C6_thm (drawFn : G → Val × G) (seedFn : ℤ → G) (n : ℤ)
    (seed : Option ℤ) (st : State G) (hn : 1 ≤ n) :
    ∃ buf, (sample drawFn seedFn n seed st).1.samples = some buf ∧
      buf.firstLen = n.toNat ∧
      buf.dim = ((drawFn (effGen seedFn seed st.g)).1).dim ∧
      buf.row0 = some ((drawFn (effGen seedFn seed st.g)).1) := by
  rcases sample_pos drawFn seedFn n seed st hn with
    ⟨b1, hlen, hdim1, hrow0, hwr, heq⟩
  have hone : ∀ i ∈ loopIndices n, 1 ≤ i := by
    intro i hi
    rw [loopIndices, List.mem_range'_1] at hi
    omega
  have hpre := runLoop_preserve drawFn (loopIndices n) b1
    ((drawFn (effGen seedFn seed st.g)).2) hone
  rcases hR : runLoop drawFn (loopIndices n) b1
      ((drawFn (effGen seedFn seed st.g)).2) with ⟨b2, g2, oe⟩
  rw [hR] at hpre heq
  cases oe with
  | some e =>
      refine ⟨b2, by rw [heq], ?_, ?_, ?_⟩
      · rw [hpre.1, hlen]
      · rw [hpre.2.1, hdim1]
      · rw [hpre.2.2, hrow0]
  | none =>
      refine ⟨b2, by rw [heq], ?_, ?_, ?_⟩
      · rw [hpre.1, hlen]
      · rw [hpre.2.1, hdim1]
      · rw [hpre.2.2, hrow0]

/-- C6 (witness): a constant scalar draw with n = 2 stores a 1-D (dim `none`)
buffer of length 2 with the first draw at index 0. -/
theorem C6_wit :
    (1 ≤ (2 : ℤ)) ∧
    ∃ buf, (sample (G := ℕ) (fun g => (Val.scalar 7, g + 1)) (fun _ => 0) 2 none
        ⟨none, 0⟩).1.samples = some buf ∧
      buf.firstLen = (2 : ℤ).toNat ∧
      buf.dim = Val.dim (Val.scalar 7) ∧
      buf.row0 = some (Val.scalar 7) :=
  ⟨by norm_num,
   C6_thm (fun g => (Val.scalar 7, g + 1)) (fun _ => 0) 2 none ⟨none, 0⟩
     (by norm_num)⟩

/-! Claim C7. -/

/-- C7 (counterexample): the claim states that any later draw whose
dimensionality disagrees with the shape fixed by the first draw (in
particular, scalar versus sequence) fails the whole batch.  In the code, with
a first draw [1, 2] and a second draw that is the scalar 5, the batch
succeeds: numpy silently broadcasts the scalar across the row, and `sample`
returns the buffer [[1, 2], [5, 5]]. -/
theorem C7_cex :
    sample (G := ℕ) (fun g => (if g = 0 then Val.vec [1, 2] else Val.scalar 5, g + 1))
      (fun _ => 0) 2 none ⟨none, 0⟩
      = (⟨some (.twoD 2 [some [1, 2], some [5, 5]]), 2⟩,
         .ok (.twoD 2 [some [1, 2], some [5, 5]])) := rfl

/-- C7 (amended): for n ≥ 1, the batch returns a buffer exactly when every
later draw is compatible with the dimensionality fixed by the first draw in
the numpy-assignment sense (`compatDim`): a sequence of the fixed length
always fits, but a scalar or a length-1 sequence is silently broadcast
rather than failing; every genuinely incompatible later draw (any other
length disagreement) makes the whole call fail, and when the call fails for
n ≥ 1 the failure is always the shape-mismatch error, with no buffer
returned. -/
theorem C7_thm (drawFn : G → Val × G) (seedFn : ℤ → G) (n : ℤ)
    (seed : Option ℤ) (st : State G) (hn : 1 ≤ n) :
    ((∃ buf, (sample drawFn seedFn n seed st).2 = .ok buf) ↔
      ∀ i, 1 ≤ i → i < n.toNat →
        compatDim ((drawAt drawFn (effGen seedFn seed st.g) 0).dim)
          (drawAt drawFn (effGen seedFn seed st.g) i)) ∧
    (∀ e, (sample drawFn seedFn n seed st).2 = .error e → e = .shapeMismatch) := by
  rcases sample_pos drawFn seedFn n seed st hn with
    ⟨b1, hlen, hdim1, hrow0, hwr, heq⟩
  have hmem : ∀ i ∈ loopIndices n, i < b1.firstLen := by
    intro i hi
    rw [loopIndices, List.mem_range'_1] at hi
    omega
  have hdim0 : b1.dim = (drawAt drawFn (effGen seedFn seed st.g) 0).dim := by
    rw [hdim1]
    rfl
  have hlength : (loopIndices n).length = n.toNat - 1 := by
    simp [loopIndices]
  have hiff := runLoop_none_iff drawFn (loopIndices n) b1
    ((drawFn (effGen seedFn seed st.g)).2) hmem
  have htrans : (∀ j, j < (loopIndices n).length →
      compatDim b1.dim (drawAt drawFn ((drawFn (effGen seedFn seed st.g)).2) j)) ↔
      (∀ i, 1 ≤ i → i < n.toNat →
        compatDim ((drawAt drawFn (effGen seedFn seed st.g) 0).dim)
          (drawAt drawFn (effGen seedFn seed st.g) i)) := by
    rw [hlength]
    constructor
    · intro hall i h1 hi
      have hstep := hall (i - 1) (by omega)
      rw [drawAt_shift] at hstep
      have hi1 : i - 1 + 1 = i := by omega
      rw [hi1] at hstep
      rw [← hdim0]
      exact hstep
    · intro hall j hj
      rw [drawAt_shift, hdim0]
      exact hall (j + 1) (by omega) (by omega)
  rcases hR : runLoop drawFn (loopIndices n) b1
      ((drawFn (effGen seedFn seed st.g)).2) with ⟨b2, g2, oe⟩
  rw [hR] at hiff heq
  cases oe with
  | some e =>
      constructor
      · constructor
        · rintro ⟨buf, hbuf⟩
          rw [heq] at hbuf
          cases hbuf
        · intro hall
          have : (some e : Option Err) = none := hiff.mpr (htrans.mpr hall)
          cases this
      · intro e' he'
        rw [heq] at he'
        injection he' with he'
        subst he'
        exact runLoop_err_shape drawFn (loopIndices n) b1
          ((drawFn (effGen seedFn seed st.g)).2) hmem (by rw [hR])
  | none =>
      constructor
      · exact iff_of_true ⟨b2, by rw [heq]⟩ (htrans.mp (hiff.mp rfl))
      · intro e' he'
        rw [heq] at he'
        cases he'

/-- C7 (witness): a constant scalar draw with n = 2 satisfies the
compatibility condition, so the amended equivalence yields a returned
buffer. -/
theorem C7_wit :
    (1 ≤ (2 : ℤ)) ∧
    ((∃ buf, (sample (G := ℕ) (fun g => (Val.scalar 1, g + 1)) (fun _ => 0) 2 none
        ⟨none, 0⟩).2 = .ok buf) ↔
      ∀ i, 1 ≤ i → i < (2 : ℤ).toNat →
        compatDim ((drawAt (fun g : ℕ => (Val.scalar (1 : ℝ), g + 1))
            (effGen (fun _ => 0) none 0) 0).dim)
          (drawAt (fun g : ℕ => (Val.scalar (1 : ℝ), g + 1))
            (effGen (fun _ => 0) none 0) i)) :=
  ⟨by norm_num,
   (C7_thm (fun g : ℕ => (Val.scalar (1 : ℝ), g + 1)) (fun _ => 0) 2 none
     ⟨none, 0⟩ (by norm_num)).1⟩

/-! Claim C8. -/

/-- C8: when the proposal log-density equals the target log-density
pointwise (q ≡ p), `draw` accepts its first candidate: if the candidate's
proposal log-density clears the floor `MIN` and the threshold lies in the
open interval (0, exp u), then log t < u = p x, so the loop returns the very
first candidate. -/
theorem C8_thm {α : Type u} (propose : ℕ → α) (thr : ℕ → ℝ) (q p : α → ℝ)
    (fuel : ℕ) (hqp : ∀ y, q y = p y)
    (hguard : MIN ≤ q (propose 0))
    (ht0 : 0 < thr 0) (ht1 : thr 0 < Real.exp (q (propose 0))) :
    draw propose thr q p (fuel + 1) 0 = some (propose 0) := by
  apply draw_accept_step
  refine ⟨hguard, ?_⟩
  have h1 : Real.log (thr 0) < Real.log (Real.exp (q (propose 0))) :=
    Real.log_lt_log ht0 ht1
  rw [Real.log_exp] at h1
  rw [← hqp (propose 0)]
  exact h1

/-- C8 (witness): with q = p = 0 everywhere, a candidate with log-density 0
(clearing the floor) and threshold 1/2 ∈ (0, exp 0) is accepted on the first
attempt. -/
theorem C8_wit :
    ((∀ _y : ℝ, (0 : ℝ) = 0) ∧ MIN ≤ (0 : ℝ) ∧ (0 : ℝ) < 1 / 2 ∧
      (1 / 2 : ℝ) < Real.exp 0) ∧
    draw (fun _ : ℕ => (0 : ℝ)) (fun _ => (1 / 2 : ℝ)) (fun _ => 0) (fun _ => 0) 1 0
      = some 0 :=
  ⟨⟨fun _ => rfl, MIN_neg.le, by norm_num, by rw [Real.exp_zero]; norm_num⟩,
   C8_thm (fun _ : ℕ => (0 : ℝ)) (fun _ => (1 / 2 : ℝ)) (fun _ => 0) (fun _ => 0) 0
     (fun _ => rfl) MIN_neg.le (by norm_num) (by rw [Real.exp_zero]; norm_num)⟩

/-! Claim C9. -/

/-- C9: for a fixed integer seed, two calls `sample(n, seed)` started from
any two sampler states (in particular, two successive calls on the same
sampler whose proposal randomness is driven by the same seeded generator)
produce the same result — identical buffers on success, the same failure
otherwise — and leave the generator in the same state: seeding
re-initialises the generator from the seed alone, once, before the first
draw. -/
theorem C9_thm (drawFn : G → Val × G) (seedFn : ℤ → G) (n : ℤ) (s : ℤ)
    (st₁ st₂ : State G) :
    (sample drawFn seedFn n (some s) st₁).2 = (sample drawFn seedFn n (some s) st₂).2 ∧
    (sample drawFn seedFn n (some s) st₁).1.g
      = (sample drawFn seedFn n (some s) st₂).1.g := by
  have h := sample_state_dep drawFn seedFn n (some s) st₁ st₂ rfl
  exact ⟨h.1, h.2.1⟩

/-! Claim C10. -/

/-- C10: whenever `sample` fails with a shape-mismatch or index-out-of-bounds
error (the n = 0 index-0 store, or a mismatching later draw), the sampler's
stored buffer has already been replaced by the newly allocated, partially
filled buffer: the post-call `self.samples` holds that new buffer, and it is
the same regardless of what buffer was stored before the call — the previous
buffer is lost even though the failed call returns no buffer. -/
theorem C10_thm (drawFn : G → Val × G) (seedFn : ℤ → G) (n : ℤ)
    (seed : Option ℤ) (st : State G)
    (hres : (sample drawFn seedFn n seed st).2 = .error .shapeMismatch ∨
      (sample drawFn seedFn n seed st).2 = .error .indexOutOfBounds) :
    ∃ b, (sample drawFn seedFn n seed st).1.samples = some b ∧
      ∀ other : Option Buffer,
        (sample drawFn seedFn n seed ⟨other, st.g⟩).1.samples = some b := by
  have hnd : (sample drawFn seedFn n seed st).2 ≠ .error .negativeDimension := by
    rcases hres with h | h <;> rw [h] <;> intro hcon <;>
      injection hcon with hcon <;> cases hcon
  have hsome : ∃ b, (sample drawFn seedFn n seed st).1.samples = some b := by
    rcases lt_trichotomy n 0 with hlt | heq0 | hgt
    · exfalso
      apply hnd
      rw [sample_neg drawFn seedFn n seed st hlt]
    · subst heq0
      rcases (sample_zero drawFn seedFn seed st).2.2 with ⟨b, hb, -⟩
      exact ⟨b, hb⟩
    · rcases sample_pos drawFn seedFn n seed st (by omega) with ⟨b1, -, -, -, -, heq⟩
      rcases hR : runLoop drawFn (loopIndices n) b1
          ((drawFn (effGen seedFn seed st.g)).2) with ⟨b2, g2, oe⟩
      rw [hR] at heq
      cases oe with
      | some e => exact ⟨b2, by rw [heq]⟩
      | none =>
          exfalso
          rcases hres with h | h <;> rw [heq] at h <;> cases h
  rcases hsome with ⟨b, hb⟩
  refine ⟨b, hb, fun other => ?_⟩
  have hdep := sample_state_dep drawFn seedFn n seed st ⟨other, st.g⟩ rfl
  rcases hdep.2.2 with hcon | heqs
  · exact absurd hcon hnd
  · rw [← heqs, hb]

/-- C10 (witness): a first scalar draw followed by a length-2 sequence draw
with n = 2 fails with the shape-mismatch error, and the partially filled new
buffer [1, uninitialised] is stored regardless of the previously stored
buffer. -/
theorem C10_wit :
    ((sample (G := ℕ)
        (fun g => (if g = 0 then Val.scalar 1 else Val.vec [1, 2], g + 1))
        (fun _ => 0) 2 none ⟨none, 0⟩).2 = .error .shapeMismatch ∨
      (sample (G := ℕ)
        (fun g => (if g = 0 then Val.scalar 1 else Val.vec [1, 2], g + 1))
        (fun _ => 0) 2 none ⟨none, 0⟩).2 = .error .indexOutOfBounds) ∧
    ∃ b, (sample (G := ℕ)
        (fun g => (if g = 0 then Val.scalar 1 else Val.vec [1, 2], g + 1))
        (fun _ => 0) 2 none ⟨none, 0⟩).1.samples = some b ∧
      ∀ other : Option Buffer,
        (sample (G := ℕ)
          (fun g => (if g = 0 then Val.scalar 1 else Val.vec [1, 2], g + 1))
          (fun _ => 0) 2 none ⟨other, 0⟩).1.samples = some b :=
  ⟨Or.inl rfl,
   C10_thm (fun g : ℕ => (if g = 0 then Val.scalar 1 else Val.vec [1, 2], g + 1))
     (fun _ => 0) 2 none ⟨none, 0⟩ (Or.inl rfl)⟩

end RejectionSampler
